import Mathlib

/-!
Verification development for the browser-history-manager repository.

The backend cache layer (history-server) ships only as documentation
(README_CACHE.md, openapi.yaml, docker-compose.yml); its Rust source is not
in this snapshot, so the cache definitions below are modelled from the spec
and the README.  The extension and utility JavaScript files are embedded
directly from their source.
-/

namespace HistoryCache

/-- Modelled from the spec: SearchQuery (spec section 3) — the parameters of
one history search.  Optional string fields are absent or present; page and
page_size are positive integers (represented as Nat, validated by the
service). -/
structure SearchQuery where
  keyword : Option String
  domain : Option String
  start_date : Option String
  end_date : Option String
  page : Nat
  page_size : Nat
deriving DecidableEq

/-- Modelled from the spec: an absent optional field encodes as the empty
segment (spec section 4.1). -/
def fieldStr : Option String → String
  | none => ""
  | some s => s

/-- Modelled from the spec: the Cache Key Codec (spec section 4.1 and the
README key format, which interpolates keyword, domain, start_date, end_date,
page and page_size in that order): raw field segments joined by the colon
delimiter, namespaced under the fixed namespace history:search: . -/
def encode (q : SearchQuery) : String :=
  "history:search:" ++ fieldStr q.keyword ++ ":" ++ fieldStr q.domain ++ ":"
    ++ fieldStr q.start_date ++ ":" ++ fieldStr q.end_date ++ ":"
    ++ Nat.repr q.page ++ ":" ++ Nat.repr q.page_size

/-- Splitting a colon-delimited stream: when two colon-free segments are each
followed by a colon and a tail and the streams agree, the segments agree and
the tails agree. -/
theorem segSplit : ∀ (a b t u : List Char), (':' ∉ a) → (':' ∉ b) →
    a ++ ':' :: t = b ++ ':' :: u → a = b ∧ t = u := by
  intro a
  induction a with
  | nil =>
    intro b t u _ hb h
    cases b with
    | nil => simpa using h
    | cons c cs =>
      exfalso
      simp only [List.nil_append, List.cons_append, List.cons.injEq] at h
      exact hb (h.1 ▸ List.mem_cons_self c cs)
  | cons c cs ih =>
    intro b t u ha hb h
    cases b with
    | nil =>
      exfalso
      simp only [List.nil_append, List.cons_append, List.cons.injEq] at h
      exact ha (h.1 ▸ List.mem_cons_self c cs)
    | cons d ds =>
      simp only [List.cons_append, List.cons.injEq] at h
      have ha' : ':' ∉ cs := fun hm => ha (List.mem_cons_of_mem c hm)
      have hb' : ':' ∉ ds := fun hm => hb (List.mem_cons_of_mem d hm)
      obtain ⟨h1, h2⟩ := ih ds t u ha' hb' h.2
      exact ⟨by rw [h.1, h1], h2⟩

/-- The fuel-indexed digit renderer from core appends onto its accumulator. -/
theorem toDigitsCore_append (f : Nat) : ∀ (n : Nat) (l : List Char),
    Nat.toDigitsCore 10 f n l = Nat.toDigitsCore 10 f n [] ++ l := by
  induction f with
  | zero => intro n l; simp [Nat.toDigitsCore]
  | succ f ih =>
    intro n l
    simp only [Nat.toDigitsCore]
    by_cases h : n / 10 = 0
    · simp [h]
    · simp only [if_neg h]
      rw [ih (n / 10) (Nat.digitChar (n % 10) :: l),
        ih (n / 10) [Nat.digitChar (n % 10)], List.append_assoc]
      rfl

/-- With enough fuel, the core digit renderer produces the reversed list of
base-ten digits, mapped through digitChar. -/
theorem toDigitsCore_spec : ∀ (f n : Nat), 0 < n → n < 10 ^ f →
    Nat.toDigitsCore 10 f n [] = ((Nat.digits 10 n).map Nat.digitChar).reverse := by
  intro f
  induction f with
  | zero => intro n h0 hf; simp at hf; omega
  | succ f ih =>
    intro n h0 hf
    rw [Nat.digits_def' (by norm_num : 1 < 10) h0]
    simp only [Nat.toDigitsCore]
    by_cases h : n / 10 = 0
    · rw [if_pos h, h, Nat.digits_zero]
      simp
    · rw [if_neg h]
      have hdiv : n / 10 < 10 ^ f := by
        rw [Nat.div_lt_iff_lt_mul (by norm_num : 0 < 10)]
        calc n < 10 ^ (f + 1) := hf
        _ = 10 ^ f * 10 := by rw [pow_succ]
      rw [toDigitsCore_append f (n / 10) [Nat.digitChar (n % 10)],
        ih (n / 10) (Nat.pos_of_ne_zero h) hdiv]
      simp

/-- The decimal representation of a positive number, as a character list, is
the reversed digit list mapped through digitChar. -/
theorem repr_data_eq (n : Nat) (h : 0 < n) :
    (Nat.repr n).data = ((Nat.digits 10 n).map Nat.digitChar).reverse := by
  have hlt : n < 10 ^ (n + 1) := by
    calc n < 2 ^ n := Nat.lt_two_pow n
    _ ≤ 10 ^ n := Nat.pow_le_pow_left (by norm_num) n
    _ < 10 ^ (n + 1) := Nat.pow_lt_pow_succ (by norm_num)
  show (Nat.toDigits 10 n).asString.data = _
  rw [Nat.toDigits, toDigitsCore_spec (n + 1) n h hlt]
  rfl

/-- No decimal digit character is a colon. -/
theorem digitChar_ne_colon : ∀ d, d < 10 → Nat.digitChar d ≠ ':' := by decide

/-- digitChar is injective on decimal digits. -/
theorem digitChar_inj_lt : ∀ d1, d1 < 10 → ∀ d2, d2 < 10 →
    Nat.digitChar d1 = Nat.digitChar d2 → d1 = d2 := by decide

/-- The colon delimiter never occurs in the decimal representation of a Nat. -/
theorem colon_not_in_repr (n : Nat) : ':' ∉ (Nat.repr n).data := by
  rcases Nat.eq_zero_or_pos n with h | h
  · subst h; decide
  · rw [repr_data_eq n h]
    simp only [List.mem_reverse, List.mem_map]
    rintro ⟨d, hd, hcolon⟩
    exact digitChar_ne_colon d (Nat.digits_lt_base (by norm_num) hd) hcolon

/-- Mapping digitChar over lists of decimal digits is injective. -/
theorem map_digitChar_inj : ∀ (l1 l2 : List Nat), (∀ x ∈ l1, x < 10) →
    (∀ x ∈ l2, x < 10) → l1.map Nat.digitChar = l2.map Nat.digitChar → l1 = l2 := by
  intro l1
  induction l1 with
  | nil => intro l2 _ _ h; cases l2 <;> simp_all
  | cons x xs ih =>
    intro l2 h1 h2 h
    cases l2 with
    | nil => simp at h
    | cons y ys =>
      simp only [List.map_cons, List.cons.injEq] at h
      have hx : x = y := digitChar_inj_lt x (h1 x (List.mem_cons_self x xs)) y
        (h2 y (List.mem_cons_self y ys)) h.1
      have hxs : xs = ys := ih ys (fun z hz => h1 z (List.mem_cons_of_mem x hz))
        (fun z hz => h2 z (List.mem_cons_of_mem y hz)) h.2
      rw [hx, hxs]

/-- The decimal representation is injective on Nat. -/
theorem repr_inj {m n : Nat} (h : Nat.repr m = Nat.repr n) : m = n := by
  have hdata : (Nat.repr m).data = (Nat.repr n).data := by rw [h]
  have key : ∀ k : Nat, 0 < k → (Nat.repr k).data = ['0'] → False := by
    intro k hk hrepr
    rw [repr_data_eq k hk] at hrepr
    have hmap : (Nat.digits 10 k).map Nat.digitChar = ['0'] := by
      have := congrArg List.reverse hrepr
      simpa using this
    have hdig : Nat.digits 10 k = [0] := by
      apply map_digitChar_inj
      · exact fun x hx => Nat.digits_lt_base (by norm_num) hx
      · intro x hx; simp at hx; omega
      · simpa using hmap
    have := Nat.ofDigits_digits 10 k
    rw [hdig] at this
    simp [Nat.ofDigits] at this
    omega
  rcases Nat.eq_zero_or_pos m with hm | hm <;> rcases Nat.eq_zero_or_pos n with hn | hn
  · omega
  · exfalso
    subst hm
    have : (Nat.repr 0).data = ['0'] := by decide
    exact key n hn (by rw [← hdata, this])
  · exfalso
    subst hn
    have : (Nat.repr 0).data = ['0'] := by decide
    exact key m hm (by rw [hdata, this])
  · have h1 := repr_data_eq m hm
    have h2 := repr_data_eq n hn
    rw [h1, h2] at hdata
    have hmap := List.reverse_injective hdata
    have hdig : Nat.digits 10 m = Nat.digits 10 n := by
      apply map_digitChar_inj
      · exact fun x hx => Nat.digits_lt_base (by norm_num) hx
      · exact fun x hx => Nat.digits_lt_base (by norm_num) hx
      · exact hmap
    have hm' := Nat.ofDigits_digits 10 m
    have hn' := Nat.ofDigits_digits 10 n
    rw [← hm', ← hn', hdig]

/-- The query of the README scenario: keyword "test", page 1, pageSize 30. -/
def qTest1 : SearchQuery := ⟨some "test", none, none, none, 1, 30⟩

/-- The same query on page 2. -/
def qTest2 : SearchQuery := ⟨some "test", none, none, none, 2, 30⟩

/-- A present optional field is well-formed for key encoding when it is
nonempty and contains no colon delimiter; an absent field always is. -/
def goodField : Option String → Prop
  | none => True
  | some s => s ≠ "" ∧ ':' ∉ s.data

instance instDecidableGoodField : (f : Option String) → Decidable (goodField f)
  | none => inferInstanceAs (Decidable True)
  | some s => inferInstanceAs (Decidable (s ≠ "" ∧ ':' ∉ s.data))

/-- A query is well-formed for key encoding when each of its optional string
fields is. -/
def goodQuery (q : SearchQuery) : Prop :=
  goodField q.keyword ∧ goodField q.domain ∧ goodField q.start_date ∧
    goodField q.end_date

instance instDecidableGoodQuery (q : SearchQuery) : Decidable (goodQuery q) :=
  inferInstanceAs (Decidable (goodField q.keyword ∧ goodField q.domain ∧
    goodField q.start_date ∧ goodField q.end_date))

/-- The encoded segment of a well-formed field is colon-free. -/
theorem goodField_colonFree {f : Option String} (h : goodField f) :
    ':' ∉ (fieldStr f).data := by
  cases f with
  | none => simp [fieldStr]
  | some s => exact h.2

/-- Well-formed fields with equal encoded segments are equal. -/
theorem fieldStr_inj {f g : Option String} (hf : goodField f) (hg : goodField g)
    (h : fieldStr f = fieldStr g) : f = g := by
  cases f <;> cases g <;> simp_all [fieldStr, goodField]

theorem colon_data : (":" : String).data = [':'] := rfl

/-- The character list underlying an encoded cache key, in right-nested form. -/
theorem encode_data (q : SearchQuery) : (encode q).data =
    "history:search:".data ++ ((fieldStr q.keyword).data ++ ':' ::
    ((fieldStr q.domain).data ++ ':' :: ((fieldStr q.start_date).data ++ ':' ::
    ((fieldStr q.end_date).data ++ ':' :: ((Nat.repr q.page).data ++ ':' ::
    (Nat.repr q.page_size).data))))) := by
  simp [encode, String.data_append, colon_data, List.append_assoc]

/-- C1 (amended): the cache key codec is injective on queries whose present
optional string fields are nonempty and colon-free: equal keys imply
field-wise equal queries. -/
theorem C1_encode_inj (a b : SearchQuery) (ha : goodQuery a) (hb : goodQuery b)
    (h : encode a = encode b) : a = b := by
  have hdata : (encode a).data = (encode b).data := by rw [h]
  rw [encode_data, encode_data] at hdata
  have h0 := List.append_cancel_left hdata
  obtain ⟨e1, r1⟩ := segSplit _ _ _ _ (goodField_colonFree ha.1)
    (goodField_colonFree hb.1) h0
  obtain ⟨e2, r2⟩ := segSplit _ _ _ _ (goodField_colonFree ha.2.1)
    (goodField_colonFree hb.2.1) r1
  obtain ⟨e3, r3⟩ := segSplit _ _ _ _ (goodField_colonFree ha.2.2.1)
    (goodField_colonFree hb.2.2.1) r2
  obtain ⟨e4, r4⟩ := segSplit _ _ _ _ (goodField_colonFree ha.2.2.2)
    (goodField_colonFree hb.2.2.2) r3
  obtain ⟨e5, r5⟩ := segSplit _ _ _ _ (colon_not_in_repr a.page)
    (colon_not_in_repr b.page) r4
  have hk := fieldStr_inj ha.1 hb.1 (String.ext e1)
  have hd := fieldStr_inj ha.2.1 hb.2.1 (String.ext e2)
  have hsd := fieldStr_inj ha.2.2.1 hb.2.2.1 (String.ext e3)
  have hed := fieldStr_inj ha.2.2.2 hb.2.2.2 (String.ext e4)
  have hp : a.page = b.page := repr_inj (String.ext e5)
  have hps : a.page_size = b.page_size := repr_inj (String.ext r5)
  rcases a with ⟨ak, ad, asd, aed, ap, aps⟩
  rcases b with ⟨bk, bd, bsd, bed, bp, bps⟩
  simp_all

/-- C1 witness: the amended injectivity theorem applied at the README query. -/
theorem C1_witness : qTest1 = qTest1 :=
  C1_encode_inj qTest1 qTest1 (by decide) (by decide) rfl

/-- C1 counterexample: as stated the claim is false when a field contains the
colon delimiter: the queries with keyword "a:", domain "b" and with keyword
"a", domain ":b" differ field-wise yet encode to the same cache key. -/
theorem C1_counterexample :
    encode ⟨some "a:", some "b", none, none, 1, 30⟩ =
      encode ⟨some "a", some ":b", none, none, 1, 30⟩ ∧
    (⟨some "a:", some "b", none, none, 1, 30⟩ : SearchQuery) ≠
      ⟨some "a", some ":b", none, none, 1, 30⟩ := by
  constructor
  · rfl
  · decide

/-- Modelled from the spec: HistoryRecord (spec section 3) — url, timestamp,
domain, optional title. -/
structure HistoryRecord where
  url : String
  timestamp : Nat
  domain : String
  title : Option String
deriving DecidableEq

/-- Modelled from the spec: SearchResult (spec section 3) — an ordered item
sequence, a total count, and the echoed pagination. -/
structure SearchResult where
  items : List HistoryRecord
  total : Nat
  page : Nat
  page_size : Nat
deriving DecidableEq

/-- Modelled from the spec: the two error kinds that may cross the service
boundary (spec section 7). -/
inductive SearchError where
  | InvalidQuery
  | BackendError
deriving DecidableEq

/-- Modelled from the spec: the possible outcomes of one CacheStore.get —
a hit with a deserialized result, a miss, or a store fault (connection
failure, timeout, or deserialization failure). -/
inductive GetOutcome where
  | hit (r : SearchResult)
  | miss
  | fault
deriving DecidableEq

/-- Modelled from the spec: the outcome of one Search Backend Client query —
a result page, or a backend failure. -/
inductive BackendOutcome where
  | ok (r : SearchResult)
  | failure
deriving DecidableEq

/-- Modelled from the spec: the cache-relevant configuration (spec section 6). -/
structure CacheConfig where
  enabled : Bool
  ttl_seconds : Nat
deriving DecidableEq

/-- The externally visible effects of one search call: which key, if any, was
read from the cache store, whether the backend was called, and which write,
if any, was dispatched asynchronously to the cache store. -/
structure SearchTrace where
  cacheGet : Option String
  backendCalled : Bool
  cacheSet : Option (String × SearchResult)
deriving DecidableEq

/-- Modelled from the spec: query-bounds validation (spec section 4.2 step 1
and the openapi parameter bounds): page at least 1, page_size between 1 and
1000. -/
def validate (q : SearchQuery) : Bool :=
  decide (1 ≤ q.page) && decide (1 ≤ q.page_size) && decide (q.page_size ≤ 1000)

/-- Modelled from the spec: the History Search Service search algorithm (spec
section 4.2), with the cache-store get outcome and the backend outcome
supplied as oracles.  Returns the result delivered to the caller together
with the trace of external effects.  When caching is disabled the cache store
is not touched at all. -/
def search (cfg : CacheConfig) (q : SearchQuery) (store : GetOutcome)
    (backend : BackendOutcome) : Except SearchError SearchResult × SearchTrace :=
  if ¬ validate q then
    (.error .InvalidQuery, ⟨none, false, none⟩)
  else if ¬ cfg.enabled then
    match backend with
    | .failure => (.error .BackendError, ⟨none, true, none⟩)
    | .ok r => (.ok r, ⟨none, true, none⟩)
  else
    let key := encode q
    match store with
    | .hit r => (.ok r, ⟨some key, false, none⟩)
    | .miss | .fault =>
      match backend with
      | .failure => (.error .BackendError, ⟨some key, true, none⟩)
      | .ok r =>
        if r.items.isEmpty then (.ok r, ⟨some key, true, none⟩)
        else (.ok r, ⟨some key, true, some (key, r)⟩)

/-- The cache store content, as an association list from keys to stored
results; lookup takes the most recent write for a key. -/
abbrev CacheState := List (String × SearchResult)

/-- Modelled from the spec: how a healthy cache store answers a get — a hit
when the key is present, a miss otherwise. -/
def storeOutcome (st : CacheState) (key : String) : GetOutcome :=
  match List.lookup key st with
  | some r => .hit r
  | none => .miss

/-- Modelled from the spec: the effect of the asynchronous cache-set on the
store state; a failed write (setOk false) leaves the store unchanged and is
never surfaced. -/
def applyTrace (setOk : Bool) (st : CacheState) (tr : SearchTrace) : CacheState :=
  match tr.cacheSet with
  | none => st
  | some (k, r) => if setOk then (k, r) :: st else st

/-- Modelled from the spec: one search call against a healthy cache store in
state st, returning the caller-visible result, the store state after the
asynchronous population settles, and whether the backend was called. -/
def searchStep (cfg : CacheConfig) (setOk : Bool) (st : CacheState)
    (backend : BackendOutcome) (q : SearchQuery) :
    Except SearchError SearchResult × CacheState × Bool :=
  let out := search cfg q (storeOutcome st (encode q)) backend
  (out.1, applyTrace setOk st out.2, out.2.backendCalled)

/-- A configuration with caching enabled and the default TTL. -/
def cfgOn : CacheConfig := ⟨true, 120⟩

/-- A sample history record. -/
def rec1 : HistoryRecord :=
  ⟨"https://example.com/", 1700000000, "example.com", some "Example"⟩

/-- A one-item search result, as in the README scenario. -/
def res1 : SearchResult := ⟨[rec1], 1, 1, 30⟩

/-- An empty search result. -/
def resEmpty : SearchResult := ⟨[], 0, 1, 30⟩

/-- C6: the README scenario keys — the query with keyword "test", page 1,
pageSize 30 encodes exactly to history:search:test::::1:30, and the page 2
query encodes to a distinct key, so the two are cached independently. -/
theorem C6_concrete_keys :
    encode qTest1 = "history:search:test::::1:30" ∧
    encode qTest2 ≠ encode qTest1 := by
  constructor
  · rfl
  · decide

/-- C2: fail-open and error taxonomy — for a valid query and a healthy
backend, a cache-store fault on get still yields the backend result and no
error of any kind crosses the boundary; the outcome of the asynchronous set
never changes the caller-visible result. -/
theorem C2_fail_open (cfg : CacheConfig) (q : SearchQuery) (store : GetOutcome)
    (backend : BackendOutcome) (r : SearchResult)
    (hv : validate q = true) (hb : backend = .ok r) :
    (store = .fault → (search cfg q store backend).1 = .ok r) ∧
    (∀ e, (search cfg q store backend).1 ≠ .error e) ∧
    (∀ setOk st, (searchStep cfg setOk st backend q).1 =
      (searchStep cfg true st backend q).1) := by
  subst hb
  refine ⟨?_, ?_, ?_⟩
  · intro hst
    subst hst
    by_cases he : cfg.enabled
    · by_cases hi : r.items = [] <;> simp [search, hv, he, hi, List.isEmpty_iff]
    · simp [search, hv, he]
  · intro e
    by_cases he : cfg.enabled
    · cases store with
      | hit r' => simp [search, hv, he]
      | miss =>
        by_cases hi : r.items = [] <;> simp [search, hv, he, hi, List.isEmpty_iff]
      | fault =>
        by_cases hi : r.items = [] <;> simp [search, hv, he, hi, List.isEmpty_iff]
    · simp [search, hv, he]
  · intro setOk st
    simp [searchStep]

/-- C2 witness: the fail-open theorem at the README query with a one-item
backend result and a faulting store. -/
theorem C2_witness :
    (search cfgOn qTest1 .fault (.ok res1)).1 = .ok res1 :=
  (C2_fail_open cfgOn qTest1 .fault (.ok res1) res1 (by decide) rfl).1 rfl

/-- C3: out-of-bounds queries are rejected with InvalidQuery before any cache
or backend access: the trace shows no cache get, no backend call and no cache
set. -/
theorem C3_invalid_rejected (cfg : CacheConfig) (q : SearchQuery)
    (store : GetOutcome) (backend : BackendOutcome)
    (h : q.page < 1 ∨ q.page_size < 1 ∨ 1000 < q.page_size) :
    search cfg q store backend = (.error .InvalidQuery, ⟨none, false, none⟩) := by
  have hv : validate q = false := by
    simp only [validate, Bool.and_eq_false_iff, decide_eq_false_iff_not]
    omega
  simp [search, hv]

/-- C3 witness: the rejection theorem at pageSize 1001. -/
theorem C3_witness :
    search cfgOn ⟨some "test", none, none, none, 1, 1001⟩ .miss (.ok res1) =
      (.error .InvalidQuery, ⟨none, false, none⟩) :=
  C3_invalid_rejected cfgOn ⟨some "test", none, none, none, 1, 1001⟩ .miss
    (.ok res1) (by decide)

/-- C4: empty results are never cached — when search returns a result with no
items, the trace carries no cache set, and the stateful step leaves the cache
state untouched. -/
theorem C4_empty_not_cached (cfg : CacheConfig) (q : SearchQuery)
    (store : GetOutcome) (backend : BackendOutcome) (setOk : Bool)
    (st : CacheState) (r : SearchResult) (hempty : r.items = []) :
    ((search cfg q store backend).1 = .ok r →
      (search cfg q store backend).2.cacheSet = none) ∧
    ((searchStep cfg setOk st backend q).1 = .ok r →
      (searchStep cfg setOk st backend q).2.1 = st) := by
  have core : ∀ store', (search cfg q store' backend).1 = .ok r →
      (search cfg q store' backend).2.cacheSet = none := by
    intro store'
    by_cases hv : validate q
    · by_cases he : cfg.enabled
      · cases store' with
        | hit r' => simp [search, hv, he]
        | miss =>
          cases backend with
          | failure => simp [search, hv, he]
          | ok r' =>
            by_cases hi : r'.items = []
            · simp [search, hv, he, hi, List.isEmpty_iff]
            · simp [search, hv, he, hi, List.isEmpty_iff]
              intro hrr
              exact absurd (by rw [hrr]; exact hempty) hi
        | fault =>
          cases backend with
          | failure => simp [search, hv, he]
          | ok r' =>
            by_cases hi : r'.items = []
            · simp [search, hv, he, hi, List.isEmpty_iff]
            · simp [search, hv, he, hi, List.isEmpty_iff]
              intro hrr
              exact absurd (by rw [hrr]; exact hempty) hi
      · cases backend <;> simp [search, hv, he]
    · simp [search, hv]
  refine ⟨core store, ?_⟩
  intro h1
  have h2 := core (storeOutcome st (encode q)) h1
  simp [searchStep, applyTrace, h2]

/-- C4 witness: the non-caching theorem at the README query with a missing
cache entry and an empty backend result — the cold store stays empty. -/
theorem C4_witness :
    (searchStep cfgOn true [] (.ok resEmpty) qTest1).2.1 = [] :=
  (C4_empty_not_cached cfgOn qTest1 .miss (.ok resEmpty) true [] resEmpty
    rfl).2 rfl

/-- C5 (amended): idempotence against a healthy store — two consecutive
identical searches return the same content, and the second call makes zero
backend calls except in the case the claim overlooks: a first result with no
items that was not already cached (empty results are never written, so the
second call misses again). -/
theorem C5_idempotent (cfg : CacheConfig) (q : SearchQuery) (st : CacheState)
    (r : SearchResult) (he : cfg.enabled = true) (hv : validate q = true) :
    ((searchStep cfg true (searchStep cfg true st (.ok r) q).2.1 (.ok r) q).1 =
      (searchStep cfg true st (.ok r) q).1) ∧
    ((searchStep cfg true (searchStep cfg true st (.ok r) q).2.1 (.ok r) q).2.2
        = false ∨
      (r.items = [] ∧ List.lookup (encode q) st = none)) := by
  cases hlk : List.lookup (encode q) st with
  | some v =>
    simp [searchStep, search, storeOutcome, applyTrace, he, hv, hlk]
  | none =>
    by_cases hi : r.items = []
    · simp [searchStep, search, storeOutcome, applyTrace, he, hv, hlk, hi,
        List.isEmpty_iff]
    · simp [searchStep, search, storeOutcome, applyTrace, he, hv, hlk, hi,
        List.isEmpty_iff, List.lookup]

/-- C5 witness: the amended idempotence theorem at the README query, cold
store and a one-item backend result. -/
theorem C5_witness :
    (searchStep cfgOn true (searchStep cfgOn true [] (.ok res1) qTest1).2.1
      (.ok res1) qTest1).1 = (searchStep cfgOn true [] (.ok res1) qTest1).1 :=
  (C5_idempotent cfgOn qTest1 [] res1 (by decide) (by decide)).1

/-- C5 counterexample: with a cold cache and a backend returning an empty
result, the second identical call still reaches the backend, refuting the
claim that the second call always makes zero backend calls. -/
theorem C5_counterexample :
    (searchStep cfgOn true (searchStep cfgOn true [] (.ok resEmpty) qTest1).2.1
      (.ok resEmpty) qTest1).2.2 = true := by decide

/-- The character list of the cache key namespace. -/
def cacheNamespace : List Char := "history:search:".data

/-- Whether a store key lies under the cache key namespace. -/
def inCacheNamespace (k : String) : Bool := cacheNamespace.isPrefixOf k.data

/-- Modelled from the spec: the Rule Cache Invalidator (spec section 4.4) —
delete every entry under the history:search: namespace and return the count
of deleted entries. -/
def invalidate_all (st : CacheState) : CacheState × Nat :=
  (st.filter (fun kv => ! inCacheNamespace kv.1),
   (st.filter (fun kv => inCacheNamespace kv.1)).length)

/-- Lookup misses when no stored key equals the requested one. -/
theorem lookup_none_of_all {st : CacheState} {k : String}
    (h : ∀ kv ∈ st, kv.1 ≠ k) : List.lookup k st = none := by
  induction st with
  | nil => rfl
  | cons kv rest ih =>
    have hne : (k == kv.1) = false :=
      beq_eq_false_iff_ne.mpr fun he => h kv (List.mem_cons_self kv rest) he.symm
    simp only [List.lookup, hne]
    exact ih fun kv' h' => h kv' (List.mem_cons_of_mem kv h')

/-- Every encoded cache key lies under the cache key namespace. -/
theorem encode_in_namespace (q : SearchQuery) : inCacheNamespace (encode q) = true := by
  unfold inCacheNamespace cacheNamespace
  rw [encode_data q, List.isPrefixOf_iff_prefix]
  exact List.prefix_append _ _

/-- Splitting a store by the namespace predicate preserves total length. -/
theorem length_filter_split (st : CacheState) :
    (st.filter (fun kv => inCacheNamespace kv.1)).length +
      (st.filter (fun kv => ! inCacheNamespace kv.1)).length = st.length := by
  induction st with
  | nil => rfl
  | cons kv rest ih =>
    by_cases h : inCacheNamespace kv.1 = true
    · simp [List.filter_cons, h]
      omega
    · have h' : inCacheNamespace kv.1 = false := by simpa using h
      simp [List.filter_cons, h']
      omega

/-- C7: invalidate_all deletes exactly the entries under the
history:search: namespace and returns their count; afterwards any valid
query misses the cache and the next search reaches the backend. -/
theorem C7_invalidate_all (st : CacheState) (cfg : CacheConfig) (setOk : Bool)
    (q : SearchQuery) (backend : BackendOutcome)
    (he : cfg.enabled = true) (hv : validate q = true) :
    (∀ kv ∈ (invalidate_all st).1, inCacheNamespace kv.1 = false) ∧
    (∀ kv ∈ st, inCacheNamespace kv.1 = false → kv ∈ (invalidate_all st).1) ∧
    ((invalidate_all st).2 + (invalidate_all st).1.length = st.length) ∧
    ((searchStep cfg setOk (invalidate_all st).1 backend q).2.2 = true) := by
  refine ⟨?_, ?_, ?_, ?_⟩
  · intro kv hkv
    simp only [invalidate_all, List.mem_filter] at hkv
    simpa using hkv.2
  · intro kv hkv h
    simp only [invalidate_all, List.mem_filter]
    exact ⟨hkv, by simp [h]⟩
  · simpa [invalidate_all] using length_filter_split st
  · have hlk : List.lookup (encode q) (invalidate_all st).1 = none := by
      apply lookup_none_of_all
      intro kv hkv hk
      have h1 : inCacheNamespace kv.1 = false := by
        simp only [invalidate_all, List.mem_filter] at hkv
        simpa using hkv.2
      rw [hk, encode_in_namespace q] at h1
      simp at h1
    cases backend with
    | failure => simp [searchStep, search, storeOutcome, he, hv, hlk]
    | ok r =>
      by_cases hi : r.items = [] <;>
        simp [searchStep, search, storeOutcome, he, hv, hlk, hi, List.isEmpty_iff]

/-- C7 witness: after invalidating a store holding the README key, the next
search for that query calls the backend. -/
theorem C7_witness :
    (searchStep cfgOn true (invalidate_all [(encode qTest1, res1)]).1
      (.ok res1) qTest1).2.2 = true :=
  (C7_invalidate_all [(encode qTest1, res1)] cfgOn true qTest1 (.ok res1)
    (by decide) (by decide)).2.2.2

end HistoryCache

namespace HttpClientJs

/-- Embedded from src/utils/http-client.js, HttpClient.request: the retry
loop body, starting at a given attempt index with a given number of retries
remaining.  The outcome of each attempt is supplied by an oracle: ok carries
the parsed JSON body of a response whose ok flag was set; error carries the
exception of that attempt (fetch rejection, timeout abort, or non-ok HTTP
status).  Returns the delivered outcome, the total number of attempts made,
and the list of delays awaited between consecutive attempts. -/
def requestFrom {α ε : Type} (retryDelay : Nat) (oracle : Nat → Except ε α) :
    Nat → Nat → Except ε α × Nat × List Nat
  | attempt, 0 =>
    match oracle attempt with
    | .ok a => (.ok a, attempt + 1, [])
    | .error e => (.error e, attempt + 1, [])
  | attempt, remaining + 1 =>
    match oracle attempt with
    | .ok a => (.ok a, attempt + 1, [])
    | .error _ =>
      let p := requestFrom retryDelay oracle (attempt + 1) remaining
      (p.1, p.2.1, retryDelay * 2 ^ attempt :: p.2.2)

/-- Embedded from src/utils/http-client.js, HttpClient.request: attempts run
from index 0 while the index is at most maxRetries. -/
def request {α ε : Type} (maxRetries retryDelay : Nat)
    (oracle : Nat → Except ε α) : Except ε α × Nat × List Nat :=
  requestFrom retryDelay oracle 0 maxRetries

/-- The retry loop, characterized relative to its starting attempt index:
between one and remaining + 1 attempts are made; the delivered outcome is
that of the last attempt made; every earlier attempt failed; the loop stops
early only on success; and the delays form the exponential backoff series. -/
theorem requestFrom_spec {α ε : Type} (retryDelay : Nat)
    (oracle : Nat → Except ε α) : ∀ (remaining attempt : Nat),
    attempt < (requestFrom retryDelay oracle attempt remaining).2.1 ∧
    (requestFrom retryDelay oracle attempt remaining).2.1 ≤
      attempt + remaining + 1 ∧
    (requestFrom retryDelay oracle attempt remaining).1 =
      oracle ((requestFrom retryDelay oracle attempt remaining).2.1 - 1) ∧
    (∀ i, attempt ≤ i →
      i < (requestFrom retryDelay oracle attempt remaining).2.1 - 1 →
      ∃ e, oracle i = .error e) ∧
    ((∃ a, (requestFrom retryDelay oracle attempt remaining).1 = .ok a) ∨
      (requestFrom retryDelay oracle attempt remaining).2.1 =
        attempt + remaining + 1) ∧
    (requestFrom retryDelay oracle attempt remaining).2.2 =
      (List.range' attempt
        ((requestFrom retryDelay oracle attempt remaining).2.1 - 1 - attempt)).map
        (fun i => retryDelay * 2 ^ i) := by
  intro remaining
  induction remaining with
  | zero =>
    intro attempt
    cases ho : oracle attempt with
    | ok a =>
      refine ⟨?_, ?_, ?_, ?_, ?_, ?_⟩ <;> simp [requestFrom, ho]
      intro i h1 h2
      omega
    | error e =>
      refine ⟨?_, ?_, ?_, ?_, ?_, ?_⟩ <;> simp [requestFrom, ho]
      intro i h1 h2
      omega
  | succ remaining ih =>
    intro attempt
    cases ho : oracle attempt with
    | ok a =>
      refine ⟨?_, ?_, ?_, ?_, ?_, ?_⟩ <;> simp [requestFrom, ho]
      intro i h1 h2
      omega
    | error e =>
      obtain ⟨ih1, ih2, ih3, ih4, ih5, ih6⟩ := ih (attempt + 1)
      refine ⟨?_, ?_, ?_, ?_, ?_, ?_⟩
      · simp only [requestFrom, ho]
        omega
      · simp only [requestFrom, ho]
        omega
      · simp only [requestFrom, ho]
        exact ih3
      · simp only [requestFrom, ho]
        intro i hi1 hi2
        rcases Nat.eq_or_lt_of_le hi1 with h | h
        · exact ⟨e, h ▸ ho⟩
        · exact ih4 i h hi2
      · simp only [requestFrom, ho]
        rcases ih5 with h | h
        · exact Or.inl h
        · right
          omega
      · simp only [requestFrom, ho]
        rw [ih6]
        have hlen : (requestFrom retryDelay oracle (attempt + 1) remaining).2.1
            - 1 - attempt =
            ((requestFrom retryDelay oracle (attempt + 1) remaining).2.1 - 1
              - (attempt + 1)) + 1 := by
          omega
        rw [hlen]
        rfl

/-- C8: HttpClient.request makes between 1 and maxRetries + 1 attempts; the
delivered value is the outcome of the last attempt made (the parsed body on
success, the last error when every attempt failed); every attempt before the
last one failed, so the first success stops the loop; the loop runs out only
after maxRetries + 1 attempts; and the delays between attempts follow the
retryDelay * 2 ^ attempt backoff series. -/
theorem C8_request (α ε : Type) (maxRetries retryDelay : Nat)
    (oracle : Nat → Except ε α) :
    (1 ≤ (request maxRetries retryDelay oracle).2.1 ∧
      (request maxRetries retryDelay oracle).2.1 ≤ maxRetries + 1) ∧
    (request maxRetries retryDelay oracle).1 =
      oracle ((request maxRetries retryDelay oracle).2.1 - 1) ∧
    (∀ i, i < (request maxRetries retryDelay oracle).2.1 - 1 →
      ∃ e, oracle i = .error e) ∧
    ((∃ a, (request maxRetries retryDelay oracle).1 = .ok a) ∨
      (request maxRetries retryDelay oracle).2.1 = maxRetries + 1) ∧
    (request maxRetries retryDelay oracle).2.2 =
      (List.range ((request maxRetries retryDelay oracle).2.1 - 1)).map
        (fun i => retryDelay * 2 ^ i) := by
  simp only [request]
  obtain ⟨h1, h2, h3, h4, h5, h6⟩ := requestFrom_spec retryDelay oracle maxRetries 0
  refine ⟨⟨h1, by omega⟩, h3, ?_, ?_, ?_⟩
  · intro i hi
    exact h4 i (Nat.zero_le i) hi
  · rcases h5 with h | h
    · exact Or.inl h
    · right
      omega
  · rw [List.range_eq_range']
    simpa using h6

/-- C8 witness: the attempt-count bounds at a concrete oracle that fails
twice and then succeeds. -/
theorem C8_witness :
    1 ≤ (request 3 50 (fun i => if i < 2 then .error "boom"
      else (.ok "data" : Except String String))).2.1 ∧
    (request 3 50 (fun i => if i < 2 then .error "boom"
      else (.ok "data" : Except String String))).2.1 ≤ 3 + 1 :=
  (C8_request String String 3 50
    (fun i => if i < 2 then .error "boom" else .ok "data")).1

end HttpClientJs

namespace LinkHighlighterJs

/-- Embedded from src/unnamed/part_000 (link-highlighter content script): one
configured URL pattern mapping; a missing field is none, and a JavaScript
falsy empty string also disables the rule. -/
structure UrlMapping where
  pattern : Option String
  replacement : Option String
deriving DecidableEq

/-- Embedded from src/unnamed/part_000, LinkHighlighter.normalizeUrl: the
scan over the configured mappings.  JavaScript regular-expression semantics
enter through the regexReplace oracle: given pattern, replacement and url it
yields none when the RegExp constructor throws on the pattern, and some of
url.replace(regex, replacement) otherwise. -/
def normalizeGo (regexReplace : String → String → String → Option String)
    (url : String) : List UrlMapping → String
  | [] => url
  | m :: rest =>
    match m.pattern, m.replacement with
    | some p, some r =>
      if p = "" ∨ r = "" then normalizeGo regexReplace url rest
      else
        match regexReplace p r url with
        | none => normalizeGo regexReplace url rest
        | some u2 => if u2 ≠ url then u2 else normalizeGo regexReplace url rest
    | _, _ => normalizeGo regexReplace url rest

/-- Embedded from src/unnamed/part_000, LinkHighlighter.normalizeUrl: a falsy
url or an absent or empty mapping list short-circuits to the input. -/
def normalizeUrl (regexReplace : String → String → String → Option String)
    (mappings : List UrlMapping) (url : String) : String :=
  if url = "" ∨ mappings.isEmpty then url
  else normalizeGo regexReplace url mappings

/-- A mapping fires on a url when both fields are present and nonempty, its
pattern compiles, and the replacement actually changes the url. -/
def ruleFires (regexReplace : String → String → String → Option String)
    (url : String) (m : UrlMapping) : Prop :=
  ∃ p r u2, m.pattern = some p ∧ m.replacement = some r ∧ p ≠ "" ∧ r ≠ "" ∧
    regexReplace p r url = some u2 ∧ u2 ≠ url

/-- A mapping that does not fire is skipped by the scan. -/
theorem normalizeGo_skip (regexReplace : String → String → String → Option String)
    (url : String) (m : UrlMapping) (rest : List UrlMapping)
    (h : ¬ ruleFires regexReplace url m) :
    normalizeGo regexReplace url (m :: rest) = normalizeGo regexReplace url rest := by
  cases hp : m.pattern with
  | none => simp [normalizeGo, hp]
  | some p =>
    cases hr : m.replacement with
    | none => simp [normalizeGo, hp, hr]
    | some r =>
      simp only [normalizeGo, hp, hr]
      by_cases hpe : p = "" ∨ r = ""
      · simp [hpe]
      · simp only [if_neg hpe]
        cases hrr : regexReplace p r url with
        | none => rfl
        | some u2 =>
          have hu : u2 = url := by
            by_contra hne
            exact h ⟨p, r, u2, hp, hr, fun he => hpe (Or.inl he),
              fun he => hpe (Or.inr he), hrr, hne⟩
          simp [hu]

/-- When no mapping fires, the scan returns the input unchanged. -/
theorem normalizeGo_unchanged (regexReplace : String → String → String → Option String)
    (url : String) : ∀ (l : List UrlMapping),
    (∀ m ∈ l, ¬ ruleFires regexReplace url m) →
    normalizeGo regexReplace url l = url := by
  intro l
  induction l with
  | nil => intro _; rfl
  | cons m rest ih =>
    intro h
    rw [normalizeGo_skip regexReplace url m rest (h m (List.mem_cons_self m rest))]
    exact ih fun m' hm' => h m' (List.mem_cons_of_mem m hm')

/-- The scan returns the rewrite of the first mapping that fires. -/
theorem normalizeGo_first (regexReplace : String → String → String → Option String)
    (url : String) : ∀ (pre : List UrlMapping) (m : UrlMapping)
    (post : List UrlMapping) (p r u2 : String),
    (∀ m' ∈ pre, ¬ ruleFires regexReplace url m') →
    m.pattern = some p → m.replacement = some r → p ≠ "" → r ≠ "" →
    regexReplace p r url = some u2 → u2 ≠ url →
    normalizeGo regexReplace url (pre ++ m :: post) = u2 := by
  intro pre
  induction pre with
  | nil =>
    intro m post p r u2 _ hp hr hpe hre hrr hne
    simp only [List.nil_append, normalizeGo, hp, hr]
    rw [if_neg (by tauto), hrr]
    simp [hne]
  | cons m0 pre0 ih =>
    intro m post p r u2 hpre hp hr hpe hre hrr hne
    rw [List.cons_append,
      normalizeGo_skip regexReplace url m0 (pre0 ++ m :: post)
        (hpre m0 (List.mem_cons_self m0 pre0))]
    exact ih m post p r u2 (fun m' hm' => hpre m' (List.mem_cons_of_mem m0 hm'))
      hp hr hpe hre hrr hne

/-- C9: normalizeUrl applies at most one mapping — scanning in order, it
skips every mapping with a missing or empty pattern or replacement or an
invalid regular expression, returns the rewritten url of the first mapping
whose replacement changes the url without consulting any later mapping, and
returns the input unchanged when no mapping changes it. -/
theorem C9_normalizeUrl (regexReplace : String → String → String → Option String)
    (mappings : List UrlMapping) (url : String) (hurl : url ≠ "") :
    ((∀ m ∈ mappings, ¬ ruleFires regexReplace url m) →
      normalizeUrl regexReplace mappings url = url) ∧
    (∀ (pre : List UrlMapping) (m : UrlMapping) (post : List UrlMapping)
      (p r u2 : String), mappings = pre ++ m :: post →
      (∀ m' ∈ pre, ¬ ruleFires regexReplace url m') →
      m.pattern = some p → m.replacement = some r → p ≠ "" → r ≠ "" →
      regexReplace p r url = some u2 → u2 ≠ url →
      normalizeUrl regexReplace mappings url = u2) := by
  constructor
  · intro h
    unfold normalizeUrl
    by_cases hm : mappings.isEmpty
    · simp [hm]
    · rw [if_neg (by tauto)]
      exact normalizeGo_unchanged regexReplace url mappings h
  · intro pre m post p r u2 hsplit hpre hp hr hpe hre hrr hne
    unfold normalizeUrl
    have hm : ¬ mappings.isEmpty = true := by
      subst hsplit
      simp [List.isEmpty_iff]
    rw [if_neg (by tauto), hsplit]
    exact normalizeGo_first regexReplace url pre m post p r u2 hpre hp hr hpe
      hre hrr hne

/-- A concrete stand-in for JavaScript regex replacement, used by the C9
witness: every pattern compiles and replacing yields the replacement text. -/
def rrDemo : String → String → String → Option String :=
  fun _ r _ => some r

/-- C9 witness: with a first mapping lacking a pattern and a second total
rewrite mapping, normalizeUrl returns the second mapping's rewrite. -/
theorem C9_witness :
    normalizeUrl rrDemo [⟨none, some "z"⟩, ⟨some "p", some "q"⟩] "u" = "q" :=
  (C9_normalizeUrl rrDemo [⟨none, some "z"⟩, ⟨some "p", some "q"⟩] "u"
      (by decide)).2
    [⟨none, some "z"⟩] ⟨some "p", some "q"⟩ [] "p" "q" "q" rfl
    (by
      intro m' hm'
      simp only [List.mem_singleton] at hm'
      subst hm'
      rintro ⟨p, r, u2, hp, _⟩
      simp at hp)
    rfl rfl (by decide) (by decide) rfl (by decide)

end LinkHighlighterJs

namespace HistoryManagerJs

/-- Embedded from src/extension/core/history-manager.js: one item of the
backend response for the history query. -/
structure RespItem where
  url : String
  timestamp : Nat
  title : Option String
deriving DecidableEq

/-- Embedded from src/extension/core/history-manager.js: the backend
response; the items field of the parsed JSON may be absent. -/
structure BackendResp where
  items : Option (List RespItem)
deriving DecidableEq

/-- Embedded from src/extension/core/history-manager.js: the record shape
built from the first backend item and cached in IndexedDB. -/
structure CachedRec where
  url : String
  timestamp : Nat
  visitCount : Nat
  title : String
deriving DecidableEq

/-- The observable outcome of one getHistoryRecord call: the returned value,
whether the returned record was fetched from the backend, and whether a
successful IndexedDB cache write happened before returning. -/
structure GetRecordOut where
  result : Option CachedRec
  fromBackend : Bool
  cacheWritten : Bool
deriving DecidableEq

/-- Embedded from src/extension/core/history-manager.js,
HistoryManager.getHistoryRecord.  Fallible collaborators are oracles:
dbGet is the IndexedDB cache read (it may throw), httpGet the backend query
(it throws on failure or timeout), dbPut the IndexedDB cache write (it may
throw).  Every throw inside the body is caught by the enclosing try and
turned into a null return. -/
def getHistoryRecord (isValidUrl : String → Bool) (url : String)
    (useCache : Bool) (dbGet : Except Unit (Option CachedRec))
    (httpGet : Except Unit BackendResp) (dbPut : Except Unit Unit) :
    GetRecordOut :=
  if url = "" ∨ isValidUrl url = false then ⟨none, false, false⟩
  else
    match (if useCache then dbGet else .ok none) with
    | .error _ => ⟨none, false, false⟩
    | .ok (some r) => ⟨some r, false, false⟩
    | .ok none =>
      match httpGet with
      | .error _ => ⟨none, false, false⟩
      | .ok resp =>
        match resp.items with
        | some (it :: _) =>
          match dbPut with
          | .error _ => ⟨none, true, false⟩
          | .ok _ => ⟨some ⟨it.url, it.timestamp, 1, it.title.getD ""⟩, true, true⟩
        | some [] => ⟨none, true, false⟩
        | none => ⟨none, true, false⟩

/-- C10: getHistoryRecord never propagates an exception and returns null for
a missing or invalid url, null when the cache read throws, null when the
backend query fails, null when the backend returns zero items, and null when
the cache write throws; whenever it returns a record fetched from the
backend, the record was successfully written to the IndexedDB cache first. -/
theorem C10_getHistoryRecord (isValidUrl : String → Bool) (url : String)
    (useCache : Bool) (dbGet : Except Unit (Option CachedRec))
    (httpGet : Except Unit BackendResp) (dbPut : Except Unit Unit) :
    ((url = "" ∨ isValidUrl url = false) →
      getHistoryRecord isValidUrl url useCache dbGet httpGet dbPut =
        ⟨none, false, false⟩) ∧
    (useCache = true → dbGet = .error () →
      (getHistoryRecord isValidUrl url useCache dbGet httpGet dbPut).result
        = none) ∧
    ((useCache = false ∨ dbGet = .ok none) → httpGet = .error () →
      (getHistoryRecord isValidUrl url useCache dbGet httpGet dbPut).result
        = none) ∧
    (∀ resp, (useCache = false ∨ dbGet = .ok none) → httpGet = .ok resp →
      (resp.items = none ∨ resp.items = some []) →
      (getHistoryRecord isValidUrl url useCache dbGet httpGet dbPut).result
        = none) ∧
    (dbPut = .error () →
      (getHistoryRecord isValidUrl url useCache dbGet httpGet dbPut).result
          = none ∨
      (getHistoryRecord isValidUrl url useCache dbGet httpGet dbPut).fromBackend
          = false) ∧
    (∀ r, (getHistoryRecord isValidUrl url useCache dbGet httpGet dbPut).result
        = some r →
      (getHistoryRecord isValidUrl url useCache dbGet httpGet dbPut).fromBackend
          = false ∨
      (getHistoryRecord isValidUrl url useCache dbGet httpGet dbPut).cacheWritten
          = true) := by
  refine ⟨?_, ?_, ?_, ?_, ?_, ?_⟩
  · intro h
    simp [getHistoryRecord, h]
  · intro hc hg
    subst hc
    by_cases h : url = "" ∨ isValidUrl url = false
    · simp [getHistoryRecord, h]
    · simp [getHistoryRecord, h, hg]
  · intro hc hg
    by_cases h : url = "" ∨ isValidUrl url = false
    · simp [getHistoryRecord, h]
    · rcases hc with hc | hc <;> simp [getHistoryRecord, h, hc, hg]
  · intro resp hc hg hitems
    by_cases h : url = "" ∨ isValidUrl url = false
    · simp [getHistoryRecord, h]
    · rcases hitems with hi | hi <;>
        rcases hc with hc | hc <;> simp [getHistoryRecord, h, hc, hg, hi]
  · intro hput
    by_cases h : url = "" ∨ isValidUrl url = false
    · simp [getHistoryRecord, h]
    · cases hcache : (if useCache then dbGet else .ok none : Except Unit (Option CachedRec)) with
      | error e => simp [getHistoryRecord, h, hcache]
      | ok v =>
        cases v with
        | some r => simp [getHistoryRecord, h, hcache]
        | none =>
          cases hg : httpGet with
          | error e => simp [getHistoryRecord, h, hcache, hg]
          | ok resp =>
            cases hi : resp.items with
            | none => simp [getHistoryRecord, h, hcache, hg, hi]
            | some l =>
              cases l with
              | nil => simp [getHistoryRecord, h, hcache, hg, hi]
              | cons it rest => simp [getHistoryRecord, h, hcache, hg, hi, hput]
  · intro r hr
    by_cases h : url = "" ∨ isValidUrl url = false
    · simp [getHistoryRecord, h] at hr
    · cases hcache : (if useCache then dbGet else .ok none : Except Unit (Option CachedRec)) with
      | error e => simp [getHistoryRecord, h, hcache] at hr
      | ok v =>
        cases v with
        | some r0 => simp [getHistoryRecord, h, hcache]
        | none =>
          cases hg : httpGet with
          | error e => simp [getHistoryRecord, h, hcache, hg] at hr
          | ok resp =>
            cases hi : resp.items with
            | none => simp [getHistoryRecord, h, hcache, hg, hi] at hr
            | some l =>
              cases l with
              | nil => simp [getHistoryRecord, h, hcache, hg, hi] at hr
              | cons it rest =>
                cases hput : dbPut with
                | error e => simp [getHistoryRecord, h, hcache, hg, hi, hput] at hr
                | ok u => simp [getHistoryRecord, h, hcache, hg, hi, hput]

/-- C10 witness: a missing url yields the null outcome. -/
theorem C10_witness :
    getHistoryRecord (fun _ => true) "" true (.ok none)
      (.ok ⟨some [⟨"https://example.com/", 5, some "t"⟩]⟩) (.ok ()) =
      ⟨none, false, false⟩ :=
  (C10_getHistoryRecord (fun _ => true) "" true (.ok none)
    (.ok ⟨some [⟨"https://example.com/", 5, some "t"⟩]⟩) (.ok ())).1
    (Or.inl rfl)

end HistoryManagerJs
